import Mathlib

/-!
Verification of the project-form application (`src/app.ts`): the
`validate` rule engine, the `ProjectState` publish/subscribe store, the
`ProjectList` status filter and the `ProjectForm` submit logic, shallowly
embedded in Lean 4.

Modelling decisions:
* JS strings are `List Char`; `String.prototype.trim` is `jsTrim`, using
  the ECMAScript whitespace set.
* JS numbers are modelled as `Int` (every numeric value the program
  manipulates is integral); `Number.prototype.toString` on them is
  `intToString`, which is never the empty string, as in JS.
* The optional fields of the `Validatable` interface are `Option`s; the
  JS test `x != null` is `Option.isSome`, and the truthiness test
  `if (obj.require)` is `Option.getD false`.
* Arrays live in an explicit heap (`List (List Project)`) so that the
  aliasing distinction between the live backing array `this.projects`
  (heap cell 0) and the fresh copies produced by `this.projects.slice()`
  is expressible.  Listener callbacks are opaque tokens of a type `L`;
  an `addProject` call returns the list of invocation events
  `(listener, snapshot reference)` it performed, in invocation order.
* `Math.random().toString()` is nondeterministic, so the fresh id is an
  explicit argument of `addProject`.
-/

/-- A JavaScript value of type `string | number` (the type of
`Validatable.value` in the source). -/
inductive JSValue where
  | str : List Char → JSValue
  | num : Int → JSValue
deriving DecidableEq

/-- The ECMAScript whitespace set used by `String.prototype.trim`:
WhiteSpace (tab, VT, FF, space, NBSP, BOM, Unicode space separators) and
LineTerminator (LF, CR, LS, PS). -/
def jsWhitespace (c : Char) : Bool :=
  c.val == 9 || c.val == 10 || c.val == 11 || c.val == 12 || c.val == 13 ||
  c.val == 32 || c.val == 160 || c.val == 0x1680 ||
  (0x2000 ≤ c.val && c.val ≤ 0x200A) ||
  c.val == 0x2028 || c.val == 0x2029 ||
  c.val == 0x202F || c.val == 0x205F || c.val == 0x3000 || c.val == 0xFEFF

/-- The JS `String.prototype.trim`: remove leading and trailing whitespace. -/
def jsTrim (s : List Char) : List Char :=
  ((s.dropWhile jsWhitespace).reverse.dropWhile jsWhitespace).reverse

/-- Decimal digits of a natural number, most significant first
(always nonempty). -/
def natDigits (n : Nat) : List Char :=
  if h : n < 10 then [Char.ofNat (48 + n)]
  else natDigits (n / 10) ++ [Char.ofNat (48 + n % 10)]
decreasing_by
  exact Nat.div_lt_self (Nat.lt_of_lt_of_le (by decide) (Nat.le_of_not_lt h)) (by decide)

/-- The JS `Number.prototype.toString` restricted to integral values. -/
def intToString (n : Int) : List Char :=
  if n < 0 then '-' :: natDigits n.natAbs else natDigits n.toNat

/-- Stringification `x.toString()` for `x : string | number` (on a string it is the
identity). -/
def jsToString : JSValue → List Char
  | JSValue.str s => s
  | JSValue.num n => intToString n

/-- The `Validatable` interface of the source: a value together with the
optional constraints `require?`, `minLength?`, `maxLength?`, `min?`,
`max?`. -/
structure Validatable where
  value : JSValue
  require : Option Bool := none
  minLength : Option Int := none
  maxLength : Option Int := none
  min : Option Int := none
  max : Option Int := none

/-- The `validate` function of the source, line by line: `isValid` starts
`true`; each `if` block applies its check only when the constraint is set
(`!= null` / truthy) and, for the length and range checks, the value has
the matching runtime type. -/
def validate (validatableValue : Validatable) : Bool :=
  let isValid := true
  let isValid :=
    if validatableValue.require.getD false then
      isValid && !((jsToString validatableValue.value).length == 0)
    else isValid
  let isValid :=
    match validatableValue.minLength, validatableValue.value with
    | some ml, JSValue.str s => isValid && decide (ml ≤ ((jsTrim s).length : Int))
    | _, _ => isValid
  let isValid :=
    match validatableValue.maxLength, validatableValue.value with
    | some ml, JSValue.str s => isValid && decide (((jsTrim s).length : Int) ≤ ml)
    | _, _ => isValid
  let isValid :=
    match validatableValue.min, validatableValue.value with
    | some lo, JSValue.num n => isValid && decide (lo ≤ n)
    | _, _ => isValid
  let isValid :=
    match validatableValue.max, validatableValue.value with
    | some hi, JSValue.num n => isValid && decide (n ≤ hi)
    | _, _ => isValid
  isValid

/-- The `ProjectStatus` enum of the source. -/
inductive ProjectStatus where
  | Active
  | Finished
deriving DecidableEq

/-- The `Project` class of the source: a record of id, title, description,
team size and status, immutable after construction. -/
structure Project where
  id : List Char
  title : List Char
  description : List Char
  numberOfPeople : Int
  status : ProjectStatus
deriving DecidableEq

/-- The `ProjectState` store, over an abstract type `L` of listener
callbacks.  JS arrays are heap cells: `heap` cell `0` is the live backing
array `this.projects`; further cells are the snapshot arrays allocated by
`this.projects.slice()` during notification.  `listeners` is the
`this.listeners` array, in registration order. -/
structure ProjectState (L : Type) where
  heap : List (List Project)
  listeners : List L
deriving DecidableEq

/-- The singleton `ProjectState.getInstance()` at its first call: the lazily constructed
singleton, with `projects = []` (one heap cell, the empty backing array)
and no listeners. -/
def ProjectState.getInstance (L : Type) : ProjectState L :=
  { heap := [[]], listeners := [] }

/-- The contents of the live backing array `this.projects`. -/
def ProjectState.projects {L : Type} (st : ProjectState L) : List Project :=
  st.heap.getD 0 []

/-- Method `addListener(listener)`: push the callback onto `this.listeners`. -/
def ProjectState.addListener {L : Type} (st : ProjectState L) (listener : L) :
    ProjectState L :=
  { st with listeners := st.listeners ++ [listener] }

/-- The notification loop of `addProject`: for each registered listener in
order, allocate a fresh copy of the backing array (`this.projects.slice()`)
as a new heap cell and invoke the listener with a reference to it.
Returns the final heap and the list of invocation events
`(listener, snapshot reference)` in invocation order. -/
def notifyAll {L : Type} (heap : List (List Project)) (snapshot : List Project) :
    List L → List (List Project) × List (L × Nat)
  | [] => (heap, [])
  | l :: ls =>
    let res := notifyAll (heap ++ [snapshot]) snapshot ls
    (res.1, (l, heap.length) :: res.2)

/-- Method `addProject(title, desc, numberOfPeople)`: construct a new `Project`
with status `Active` and the freshly generated id (passed in, modelling
`Math.random().toString()`), push it onto the live backing array, then
invoke every listener with a fresh copy of the backing array.  Total: no
validation, no failure path. -/
def ProjectState.addProject {L : Type} (st : ProjectState L)
    (id title desc : List Char) (numberOfPeople : Int) :
    ProjectState L × List (L × Nat) :=
  let newProject : Project :=
    { id := id, title := title, description := desc,
      numberOfPeople := numberOfPeople, status := ProjectStatus.Active }
  let backing := st.projects ++ [newProject]
  let heap1 := st.heap.set 0 backing
  let res := notifyAll heap1 backing st.listeners
  ({ heap := res.1, listeners := st.listeners }, res.2)

/-- The `type` discriminator of a `ProjectList` instance
(`"active" | "finished"`). -/
inductive ListType where
  | active
  | finished
deriving DecidableEq

/-- The filter inside the `ProjectList` store listener: keep the projects
whose status matches this instance's bound type. -/
def relevantProject (type : ListType) (projects : List Project) :
    List Project :=
  projects.filter fun project =>
    match type with
    | ListType.active => decide (project.status = ProjectStatus.Active)
    | ListType.finished => decide (project.status = ProjectStatus.Finished)

/-- The three input elements of the `ProjectForm`, by their current
`value` strings. -/
structure FormFields where
  titleValue : List Char
  descriptionValue : List Char
  peopleValue : List Char
deriving DecidableEq

/-- Method `clearInputs()`: set all three field values to `""`. -/
def clearInputs (_ : FormFields) : FormFields :=
  { titleValue := [], descriptionValue := [], peopleValue := [] }

/-- The rule `gatherInputs` builds for the title field: `require` only. -/
def validatableTitle (titleInput : List Char) : Validatable :=
  { value := JSValue.str titleInput, require := some true }

/-- The rule `gatherInputs` builds for the description field: `require`
and `minLength: 5`. -/
def validatableDescription (descriptionInput : List Char) : Validatable :=
  { value := JSValue.str descriptionInput, require := some true,
    minLength := some 5 }

/-- The rule `gatherInputs` builds for the people field: `require`,
`min: 1` and `max: 6`, on the numeric coercion `+peopleInput`. -/
def validatablePeople (peopleNum : Int) : Validatable :=
  { value := JSValue.num peopleNum, require := some true,
    min := some 1, max := some 6 }

/-- Method `gatherInputs()` of `ProjectForm`: build the three validation rules,
validate each, and return the triple on success or `none` (the `alert`
branch) on failure.  `peopleNum` is the value of the JS numeric coercion
`+peopleInput`, supplied as a parameter. -/
def gatherInputs (fields : FormFields) (peopleNum : Int) :
    Option (List Char × List Char × Int) :=
  if !validate (validatableTitle fields.titleValue) ||
      !validate (validatableDescription fields.descriptionValue) ||
      !validate (validatablePeople peopleNum) then
    none
  else
    some (fields.titleValue, fields.descriptionValue, peopleNum)

/-- The result of one `handleSubmit` run: the store afterwards, the form
fields afterwards, the listener invocation events performed, and whether
the blocking `alert("Invalid Inputs")` notice was shown. -/
structure SubmitResult (L : Type) where
  state : ProjectState L
  fields : FormFields
  events : List (L × Nat)
  alerted : Bool
deriving DecidableEq

/-- Method `handleSubmit(e)`: run `gatherInputs`; if it returned a triple, call
`projectState.addProject` with it and clear the inputs; otherwise (the
alert was shown) change nothing. -/
def handleSubmit {L : Type} (st : ProjectState L) (fields : FormFields)
    (peopleNum : Int) (newId : List Char) : SubmitResult L :=
  match gatherInputs fields peopleNum with
  | some (title, desc, people) =>
    let res := st.addProject newId title desc people
    { state := res.1, fields := clearInputs fields, events := res.2,
      alerted := false }
  | none =>
    { state := st, fields := fields, events := [], alerted := true }

/-- The states of the store reachable in the running system: the singleton
starts empty and is only ever changed by `addListener` (from the
`ProjectList` constructors) and `addProject` (from `handleSubmit`). -/
inductive Reachable {L : Type} : ProjectState L → Prop where
  | init : Reachable (ProjectState.getInstance L)
  | listener {st : ProjectState L} (l : L) :
      Reachable st → Reachable (st.addListener l)
  | project {st : ProjectState L} (id title desc : List Char)
      (numberOfPeople : Int) :
      Reachable st →
      Reachable (st.addProject id title desc numberOfPeople).1

/-! ### Refinement-side check functions (one per clause of the spec) -/

/-- Spec side of the refinement for the combined-AND claim: the `required`
clause alone ("value, stringified, must have non-zero length"), `true`
when inapplicable. -/
def requiredCheck (rule : Validatable) : Bool :=
  if rule.require.getD false then !((jsToString rule.value).length == 0)
  else true

/-- Spec side: the `minLength` clause alone ("trimmed length ≥ bound" when
the bound is set and the value is textual), `true` when inapplicable. -/
def minLengthCheck (rule : Validatable) : Bool :=
  match rule.minLength, rule.value with
  | some ml, JSValue.str s => decide (ml ≤ ((jsTrim s).length : Int))
  | _, _ => true

/-- Spec side: the `maxLength` clause alone, `true` when inapplicable. -/
def maxLengthCheck (rule : Validatable) : Bool :=
  match rule.maxLength, rule.value with
  | some ml, JSValue.str s => decide (((jsTrim s).length : Int) ≤ ml)
  | _, _ => true

/-- Spec side: the `min` clause alone ("raw numeric value ≥ bound" when
the bound is set and the value is numeric), `true` when inapplicable. -/
def minCheck (rule : Validatable) : Bool :=
  match rule.min, rule.value with
  | some lo, JSValue.num n => decide (lo ≤ n)
  | _, _ => true

/-- Spec side: the `max` clause alone, `true` when inapplicable. -/
def maxCheck (rule : Validatable) : Bool :=
  match rule.max, rule.value with
  | some hi, JSValue.num n => decide (n ≤ hi)
  | _, _ => true

/-! ### Helper lemmas -/

theorem natDigits_ne_nil (n : Nat) : natDigits n ≠ [] := by
  rw [natDigits]
  split <;> simp

theorem intToString_ne_nil (n : Int) : intToString n ≠ [] := by
  unfold intToString
  split
  · simp
  · exact natDigits_ne_nil _

theorem jsTrim_eq_nil_of_whitespace {s : List Char}
    (h : ∀ c ∈ s, jsWhitespace c = true) : jsTrim s = [] := by
  unfold jsTrim
  rw [List.dropWhile_eq_nil_iff.mpr h]
  simp

/-! ### Claims about the validation engine -/

/-- C4: for every string `S` and integer bounds `min`, `max`, `validate`
on a rule with value `S`, `minLength = min`, `maxLength = max` and no
other constraint returns `true` iff
`min ≤ length (trim S)` and `length (trim S) ≤ max`: the length compared
is that of the trimmed string. -/
theorem validate_string_bounds (s : List Char) (mn mx : Int) :
    validate { value := JSValue.str s, minLength := some mn,
               maxLength := some mx } = true ↔
      mn ≤ ((jsTrim s).length : Int) ∧ ((jsTrim s).length : Int) ≤ mx := by
  simp [validate]

/-- C5: for every number `N` and numeric bounds `lo`, `hi`, `validate` on
a rule with value `N`, `min = lo`, `max = hi` and no other constraint
returns `true` iff `lo ≤ N ≤ hi`, comparing the raw numeric value. -/
theorem validate_number_bounds (n lo hi : Int) :
    validate { value := JSValue.num n, min := some lo,
               max := some hi } = true ↔ lo ≤ n ∧ n ≤ hi := by
  simp [validate]

/-- C6: for every rule with `require = true` and no other constraint,
`validate` returns `false` exactly when the stringified value has zero
length, and `true` otherwise — for string and number values alike. -/
theorem validate_require_iff (v : JSValue) :
    validate { value := v, require := some true } = true ↔
      (jsToString v).length ≠ 0 := by
  cases v <;> simp [validate]

/-- C7: `validate` is the logical AND of exactly the applicable checks: a
check whose bound is unset or whose value kind does not match is skipped
(contributes `true`), and a rule all of whose checks are inapplicable
yields `true`. -/
theorem validate_eq_and_of_checks :
    (∀ rule : Validatable,
      validate rule = (requiredCheck rule && minLengthCheck rule &&
        maxLengthCheck rule && minCheck rule && maxCheck rule)) ∧
    (∀ v : JSValue, validate { value := v } = true) := by
  constructor
  · intro rule
    obtain ⟨v, req, ml, Ml, mn, mx⟩ := rule
    cases req <;> cases ml <;> cases Ml <;> cases mn <;> cases mx <;>
      cases v <;>
      simp [validate, requiredCheck, minLengthCheck, maxLengthCheck,
        minCheck, maxCheck, Bool.and_assoc]
  · intro v
    cases v <;> simp [validate]

/-- C10: the `required` check uses the untrimmed stringified value while
the length checks trim: a nonempty all-whitespace string passes
`require = true` alone, but fails as soon as `minLength ≥ 1` is also
set. -/
theorem validate_require_untrimmed (s : List Char)
    (hne : s ≠ []) (hws : ∀ c ∈ s, jsWhitespace c = true) :
    validate { value := JSValue.str s, require := some true } = true ∧
    ∀ ml : Int, 1 ≤ ml →
      validate { value := JSValue.str s, require := some true,
                 minLength := some ml } = false := by
  have hlen : s.length ≠ 0 := by
    simpa [List.length_eq_zero] using hne
  have ht : jsTrim s = [] := jsTrim_eq_nil_of_whitespace hws
  constructor
  · simp [validate, jsToString, hlen]
  · intro ml hml
    have hnot : ¬ ml ≤ ((jsTrim s).length : Int) := by
      rw [ht]
      simpa using by omega
    simp [validate, jsToString, ht, hlen]
    omega

/-- Witness for C10 at the concrete single-space string and bound 1. -/
theorem validate_require_untrimmed_witness :
    validate { value := JSValue.str [' '], require := some true } = true ∧
    validate { value := JSValue.str [' '], require := some true,
               minLength := some 1 } = false := by
  have h := validate_require_untrimmed [' '] (by decide) (by decide)
  exact ⟨h.1, h.2 1 (by decide)⟩

/-! ### Helper lemmas about the store -/

theorem getD_set_self {α : Type} (l : List α) (n : Nat) (v d : α)
    (h : n < l.length) : (l.set n v).getD n d = v := by
  rw [List.getD_eq_getElem?_getD, List.getElem?_set_eq_of_lt _ h]
  rfl

theorem getD_set_ne {α : Type} (l : List α) (m n : Nat) (v d : α)
    (h : m ≠ n) : (l.set m v).getD n d = l.getD n d := by
  rw [List.getD_eq_getElem?_getD, List.getElem?_set_ne h,
    ← List.getD_eq_getElem?_getD]

theorem notifyAll_fst {L : Type} (heap : List (List Project))
    (snapshot : List Project) (ls : List L) :
    (notifyAll heap snapshot ls).1 = heap ++ ls.map fun _ => snapshot := by
  induction ls generalizing heap with
  | nil => simp [notifyAll]
  | cons l ls ih => simp [notifyAll, ih, List.append_assoc]

theorem notifyAll_events_map {L : Type} (heap : List (List Project))
    (snapshot : List Project) (ls : List L) :
    ((notifyAll heap snapshot ls).2).map Prod.fst = ls := by
  induction ls generalizing heap with
  | nil => simp [notifyAll]
  | cons l ls ih => simp [notifyAll, ih]

theorem notifyAll_events_spec {L : Type} (heap : List (List Project))
    (snapshot : List Project) (ls : List L) :
    ∀ ev ∈ (notifyAll heap snapshot ls).2,
      heap.length ≤ ev.2 ∧ ev.2 < heap.length + ls.length ∧
      (notifyAll heap snapshot ls).1.getD ev.2 [] = snapshot := by
  induction ls generalizing heap with
  | nil =>
    intro ev hev
    simp [notifyAll] at hev
  | cons l ls ih =>
    intro ev hev
    simp only [notifyAll] at hev ⊢
    rcases List.mem_cons.mp hev with h | h
    · subst h
      refine ⟨Nat.le_refl _, by simp, ?_⟩
      rw [notifyAll_fst, List.append_assoc,
        List.getD_append_right _ _ _ _ (Nat.le_refl _)]
      simp
    · obtain ⟨h1, h2, h3⟩ := ih (heap ++ [snapshot]) ev h
      simp only [List.length_append, List.length_cons, List.length_nil] at h1 h2
      exact ⟨by omega, by simp only [List.length_cons]; omega, h3⟩

/-- Unfolding equation for `addProject`. -/
theorem addProject_def {L : Type} (st : ProjectState L)
    (id title desc : List Char) (numberOfPeople : Int) :
    st.addProject id title desc numberOfPeople =
      ({ heap := (notifyAll
            (st.heap.set 0 (st.projects ++
              [Project.mk id title desc numberOfPeople ProjectStatus.Active]))
            (st.projects ++
              [Project.mk id title desc numberOfPeople ProjectStatus.Active])
            st.listeners).1,
         listeners := st.listeners },
       (notifyAll
          (st.heap.set 0 (st.projects ++
            [Project.mk id title desc numberOfPeople ProjectStatus.Active]))
          (st.projects ++
            [Project.mk id title desc numberOfPeople ProjectStatus.Active])
          st.listeners).2) := rfl

/-- The backing array `this.projects` is a heap cell (or the heap is
degenerate and `projects` is empty). -/
theorem projects_mem_or_nil {L : Type} (st : ProjectState L) :
    st.projects ∈ st.heap ∨ st.projects = [] := by
  unfold ProjectState.projects
  cases hh : st.heap with
  | nil => right; rfl
  | cons a t => left; simp

/-- Every array anywhere in the heap of a reachable store state contains
only `Active` projects. -/
theorem reachable_all_active {L : Type} {st : ProjectState L}
    (h : Reachable st) :
    ∀ arr ∈ st.heap, ∀ p ∈ arr, p.status = ProjectStatus.Active := by
  induction h with
  | init =>
    intro arr harr p hp
    simp [ProjectState.getInstance] at harr
    subst harr
    simp at hp
  | listener l _ ih =>
    intro arr harr
    exact ih arr harr
  | project id title desc numberOfPeople _ ih =>
    rename_i st _
    intro arr harr p hp
    have hsnap : ∀ q ∈ st.projects ++
        [Project.mk id title desc numberOfPeople ProjectStatus.Active],
        q.status = ProjectStatus.Active := by
      intro q hq
      rcases List.mem_append.mp hq with hq1 | hq1
      · rcases projects_mem_or_nil st with hm | hm
        · exact ih _ hm q hq1
        · rw [hm] at hq1
          simp at hq1
      · simp at hq1
        subst hq1
        rfl
    rw [addProject_def] at harr
    rw [notifyAll_fst] at harr
    rcases List.mem_append.mp harr with h1 | h1
    · rcases List.mem_or_eq_of_mem_set h1 with h2 | h2
      · exact ih _ h2 p hp
      · subst h2
        exact hsnap p hp
    · obtain ⟨_, _, rfl⟩ := List.mem_map.mp h1
      exact hsnap p hp

/-! ### Claims about the store -/

/-- C1: every listener receives a fresh copy, never the live backing
array: every snapshot reference handed out by an `addProject` call is a
heap cell other than cell 0 (the backing array), and a subsequent
`addProject` call leaves the captured array unchanged — contents and, in
particular, length. -/
theorem snapshot_immutable {L : Type} (st : ProjectState L)
    (id1 t1 d1 : List Char) (n1 : Int) (id2 t2 d2 : List Char) (n2 : Int)
    (hwf : 0 < st.heap.length) :
    ∀ ev ∈ (st.addProject id1 t1 d1 n1).2,
      ev.2 ≠ 0 ∧
      (((st.addProject id1 t1 d1 n1).1.addProject id2 t2 d2 n2).1.heap.getD
          ev.2 [] =
        (st.addProject id1 t1 d1 n1).1.heap.getD ev.2 []) ∧
      ((((st.addProject id1 t1 d1 n1).1.addProject id2 t2 d2 n2).1.heap.getD
          ev.2 []).length =
        ((st.addProject id1 t1 d1 n1).1.heap.getD ev.2 []).length) := by
  intro ev hev
  rw [addProject_def] at hev
  obtain ⟨h1, h2, _⟩ := notifyAll_events_spec _ _ _ ev hev
  simp only [List.length_set] at h1 h2
  have hne : ev.2 ≠ 0 := by omega
  have hlt : ev.2 < (st.addProject id1 t1 d1 n1).1.heap.length := by
    rw [addProject_def, notifyAll_fst]
    simp only [List.length_append, List.length_set, List.length_map]
    omega
  have hkeep :
      ((st.addProject id1 t1 d1 n1).1.addProject id2 t2 d2 n2).1.heap.getD
          ev.2 [] =
        (st.addProject id1 t1 d1 n1).1.heap.getD ev.2 [] := by
    rw [addProject_def ((st.addProject id1 t1 d1 n1).1), notifyAll_fst]
    rw [List.getD_append _ _ _ _ (by simpa using hlt)]
    exact getD_set_ne _ _ _ _ _ (fun h => hne h.symm)
  exact ⟨hne, hkeep, by rw [hkeep]⟩

/-- Witness for C1: one listener, two `addProject` calls; the snapshot
cell (cell 1) handed to the listener by the first call is unchanged by
the second. -/
theorem snapshot_immutable_witness :
    ((7, 1) ∈ ((ProjectState.mk [[]] [7] : ProjectState Nat).addProject
      ['a'] ['t'] ['d'] 1).2) ∧
    ((((ProjectState.mk [[]] [7] : ProjectState Nat).addProject
        ['a'] ['t'] ['d'] 1).1.addProject ['b'] ['u'] ['e'] 2).1.heap.getD
        1 [] =
      ((ProjectState.mk [[]] [7] : ProjectState Nat).addProject
        ['a'] ['t'] ['d'] 1).1.heap.getD 1 []) := by
  have h := snapshot_immutable (ProjectState.mk [[]] [7] : ProjectState Nat)
    ['a'] ['t'] ['d'] 1 ['b'] ['u'] ['e'] 2 (by decide) (7, 1) (by decide)
  exact ⟨by decide, h.2.1⟩

/-- C2: `addProject` appends exactly one new project, with status
`Active` and the freshly generated id, to the end of the sequence,
leaving all existing entries in place; it is a total function — no
validation, no failure path, for arbitrary inputs. -/
theorem addProject_appends {L : Type} (st : ProjectState L)
    (id title desc : List Char) (numberOfPeople : Int)
    (hwf : 0 < st.heap.length) :
    (st.addProject id title desc numberOfPeople).1.projects =
      st.projects ++
        [Project.mk id title desc numberOfPeople ProjectStatus.Active] := by
  show (st.addProject id title desc numberOfPeople).1.heap.getD 0 [] = _
  rw [addProject_def, notifyAll_fst]
  rw [List.getD_append _ _ _ _ (by simpa using hwf)]
  exact getD_set_self _ _ _ _ hwf

/-- Witness for C2 on the singleton's initial state. -/
theorem addProject_appends_witness :
    (0 < (ProjectState.getInstance Nat).heap.length) ∧
    ((ProjectState.getInstance Nat).addProject ['a'] ['t'] ['d'] 3).1.projects =
      (ProjectState.getInstance Nat).projects ++
        [Project.mk ['a'] ['t'] ['d'] 3 ProjectStatus.Active] :=
  ⟨by decide,
   addProject_appends (ProjectState.getInstance Nat) ['a'] ['t'] ['d'] 3
     (by decide)⟩

/-- C3: an `addProject` call invokes exactly the listeners registered
before it, in registration order; each receives a snapshot equal to the
previous list with the new project appended (so it contains the new
project and preserves insertion order); a callback not yet registered
receives no invocation from that call. -/
theorem addProject_notifies {L : Type} (st : ProjectState L)
    (id title desc : List Char) (numberOfPeople : Int) :
    (((st.addProject id title desc numberOfPeople).2).map Prod.fst =
      st.listeners) ∧
    (∀ ev ∈ (st.addProject id title desc numberOfPeople).2,
      (st.addProject id title desc numberOfPeople).1.heap.getD ev.2 [] =
        st.projects ++
          [Project.mk id title desc numberOfPeople ProjectStatus.Active]) ∧
    (∀ l : L, l ∉ st.listeners →
      l ∉ ((st.addProject id title desc numberOfPeople).2).map Prod.fst) := by
  have hmap : ((st.addProject id title desc numberOfPeople).2).map Prod.fst =
      st.listeners := by
    rw [addProject_def]
    exact notifyAll_events_map _ _ _
  refine ⟨hmap, ?_, ?_⟩
  · intro ev hev
    rw [addProject_def] at hev ⊢
    exact (notifyAll_events_spec _ _ _ ev hev).2.2
  · intro l hl hmem
    rw [hmap] at hmem
    exact hl hmem

/-- Witness for C3: two listeners registered, a third token not
registered; the call notifies exactly listeners 0 then 1 with the
one-project snapshot, and token 5 is not notified. -/
theorem addProject_notifies_witness :
    ((((ProjectState.mk [[]] [0, 1] : ProjectState Nat).addProject
        ['i'] ['t'] ['d'] 2).2).map Prod.fst = [0, 1]) ∧
    (5 ∉ (((ProjectState.mk [[]] [0, 1] : ProjectState Nat).addProject
        ['i'] ['t'] ['d'] 2).2).map Prod.fst) := by
  have h := addProject_notifies (ProjectState.mk [[]] [0, 1] : ProjectState Nat)
    ['i'] ['t'] ['d'] 2
  exact ⟨h.1, h.2.2 5 (by decide)⟩

/-- C8: in every reachable store state every held project has status
`Active` (nothing ever transitions a project to `Finished`), so the
finished-list filter always selects the empty list. -/
theorem reachable_projects_active {L : Type} (st : ProjectState L)
    (h : Reachable st) :
    (∀ p ∈ st.projects, p.status = ProjectStatus.Active) ∧
    relevantProject ListType.finished st.projects = [] := by
  have hall : ∀ p ∈ st.projects, p.status = ProjectStatus.Active := by
    intro p hp
    rcases projects_mem_or_nil st with hm | hm
    · exact reachable_all_active h _ hm p hp
    · rw [hm] at hp
      simp at hp
  refine ⟨hall, ?_⟩
  unfold relevantProject
  rw [List.filter_eq_nil_iff]
  intro p hp
  simp [hall p hp]

/-- Witness for C8 on a concrete reachable state: one listener then one
added project. -/
theorem reachable_projects_active_witness :
    relevantProject ListType.finished
      ((((ProjectState.getInstance Nat).addListener 4).addProject
        ['i'] ['t'] ['d'] 3).1.projects) = [] := by
  have h := reachable_projects_active
    ((((ProjectState.getInstance Nat).addListener 4).addProject
      ['i'] ['t'] ['d'] 3).1)
    (Reachable.project ['i'] ['t'] ['d'] 3
      (Reachable.listener 4 Reachable.init))
  exact h.2

/-- C9: on submit, the three fields are checked against exactly the rules
title: require; description: require + minLength 5; people (numeric
coercion): require + min 1 + max 6.  If all three pass, the result is one
`addProject` call with those values (its state and events) and cleared
fields with no notice; if any fails, the notice is shown and store, form
fields and events are untouched.  In particular the concrete submission
with description "hi" is rejected on the empty singleton: the store stays
as it was, no listener fires, the notice shows. -/
theorem handleSubmit_spec {L : Type} (st : ProjectState L)
    (fields : FormFields) (peopleNum : Int) (newId : List Char) :
    (handleSubmit st fields peopleNum newId =
      if validate (validatableTitle fields.titleValue) &&
          validate (validatableDescription fields.descriptionValue) &&
          validate (validatablePeople peopleNum) then
        { state := (st.addProject newId fields.titleValue
                     fields.descriptionValue peopleNum).1,
          fields := { titleValue := [], descriptionValue := [],
                      peopleValue := [] },
          events := (st.addProject newId fields.titleValue
                      fields.descriptionValue peopleNum).2,
          alerted := false }
      else
        { state := st, fields := fields, events := [], alerted := true }) ∧
    (handleSubmit (ProjectState.getInstance L)
        { titleValue := ['B', 'u', 'i', 'l', 'd'],
          descriptionValue := ['h', 'i'], peopleValue := ['3'] } 3 newId =
      { state := ProjectState.getInstance L,
        fields := { titleValue := ['B', 'u', 'i', 'l', 'd'],
                    descriptionValue := ['h', 'i'],
                    peopleValue := ['3'] },
        events := [], alerted := true }) := by
  constructor
  · simp only [handleSubmit, gatherInputs, clearInputs]
    cases hva : validate (validatableTitle fields.titleValue) <;>
      cases hvb : validate (validatableDescription fields.descriptionValue) <;>
      cases hvc : validate (validatablePeople peopleNum) <;>
      simp
  · rfl
